import Mathlib

/-!
Verification of the tlparse log-parsing core (src/main.rs) against its
natural-language specification.

The Rust source is shallowly embedded below:
* machine integers (`u32`, `u64`, `i32`) are modelled as `Nat` / `Int`
  (counters only ever increase; ids are small and never overflow in the
  modelled operations);
* the glog header regex `re_glog` is compiled by hand into a character-level
  matcher (`glogScan` / `glogMatchAt` / `glogSearch`);
* the MD5 digest computed by the external `md5` crate, and the hex decoding
  done by the external `base16ct` crate, are modelled from their documented
  algorithms (RFC 1321 MD5; strict lowercase hex into a 16-byte buffer);
* `serde_json` envelope decoding is an external crate; the ingestion loop is
  parametrised over a `decode : String → Option Envelope` function, matching
  the spec's Envelope Decoder interface;
* file-system effects (`create_dir_all`, `fs::write`) are recorded in the
  loop state as lists of performed operations (the spec's Sink);
* `FxHashMap` / global `INTERN_TABLE` are modelled as association lists with
  insert-overwrites-in-place semantics; `IndexMap` (insertion-ordered) is an
  association list where a fresh key is appended at the end.
-/

/-! ## Bit-level helpers for 32-bit arithmetic (all on `Nat`, mod 2^32) -/

/-- Bitwise combine of the low `fuel` bits of `a` and `b` with boolean op `f`.
Structural on `fuel`, so it evaluates inside `decide`/`rfl`. -/
def bitCombine (f : Bool → Bool → Bool) : Nat → Nat → Nat → Nat
  | 0, _, _ => 0
  | fuel+1, a, b =>
      (if f (a % 2 = 1) (b % 2 = 1) then 1 else 0) + 2 * bitCombine f fuel (a / 2) (b / 2)

def and32 (a b : Nat) : Nat := bitCombine (fun x y => x && y) 32 a b

def or32 (a b : Nat) : Nat := bitCombine (fun x y => x || y) 32 a b

def xor32 (a b : Nat) : Nat := bitCombine (fun x y => x != y) 32 a b

/-- 32-bit complement (the Rust `!` on `u32`). -/
def not32 (a : Nat) : Nat := 4294967295 - (a % 4294967296)

def add32 (a b : Nat) : Nat := (a + b) % 4294967296

/-- 32-bit left rotation: low and high parts do not overlap, so `+` is `|`. -/
def rotl32 (x n : Nat) : Nat :=
  ((x % 4294967296) * 2 ^ n + (x % 4294967296) / 2 ^ (32 - n)) % 4294967296

/-! ## MD5 (modelled from the spec: the "128-bit digest algorithm" used by the
Payload Verifier; the `md5` crate implements RFC 1321, which is what is
transcribed here). Bytes are `Nat` values < 256. -/

/-- `count` little-endian bytes of `n`. -/
def leBytes : Nat → Nat → List Nat
  | _, 0 => []
  | n, k+1 => (n % 256) :: leBytes (n / 256) k

/-- MD5 padding: append 0x80, zero bytes to reach 56 mod 64, then the bit
length as 8 little-endian bytes. -/
def md5Pad (msg : List Nat) : List Nat :=
  msg ++ [128] ++ List.replicate ((119 - msg.length % 64) % 64) 0 ++ leBytes (8 * msg.length) 8

/-- Group bytes into 32-bit little-endian words. -/
def toWordsLE : List Nat → List Nat
  | b0 :: b1 :: b2 :: b3 :: rest =>
      (b0 + 256 * b1 + 65536 * b2 + 16777216 * b3) :: toWordsLE rest
  | _ => []

/-- The 64 MD5 round constants (RFC 1321, `T[i] = floor(2^32 * abs(sin(i+1)))`). -/
def md5K : List Nat :=
  [0xd76aa478, 0xe8c7b756, 0x242070db, 0xc1bdceee,
   0xf57c0faf, 0x4787c62a, 0xa8304613, 0xfd469501,
   0x698098d8, 0x8b44f7af, 0xffff5bb1, 0x895cd7be,
   0x6b901122, 0xfd987193, 0xa679438e, 0x49b40821,
   0xf61e2562, 0xc040b340, 0x265e5a51, 0xe9b6c7aa,
   0xd62f105d, 0x02441453, 0xd8a1e681, 0xe7d3fbc8,
   0x21e1cde6, 0xc33707d6, 0xf4d50d87, 0x455a14ed,
   0xa9e3e905, 0xfcefa3f8, 0x676f02d9, 0x8d2a4c8a,
   0xfffa3942, 0x8771f681, 0x6d9d6122, 0xfde5380c,
   0xa4beea44, 0x4bdecfa9, 0xf6bb4b60, 0xbebfbc70,
   0x289b7ec6, 0xeaa127fa, 0xd4ef3085, 0x04881d05,
   0xd9d4d039, 0xe6db99e5, 0x1fa27cf8, 0xc4ac5665,
   0xf4292244, 0x432aff97, 0xab9423a7, 0xfc93a039,
   0x655b59c3, 0x8f0ccc92, 0xffeff47d, 0x85845dd1,
   0x6fa87e4f, 0xfe2ce6e0, 0xa3014314, 0x4e0811a1,
   0xf7537e82, 0xbd3af235, 0x2ad7d2bb, 0xeb86d391]

/-- The 64 MD5 per-round left-rotation amounts. -/
def md5S : List Nat :=
  [7, 12, 17, 22, 7, 12, 17, 22, 7, 12, 17, 22, 7, 12, 17, 22,
   5, 9, 14, 20, 5, 9, 14, 20, 5, 9, 14, 20, 5, 9, 14, 20,
   4, 11, 16, 23, 4, 11, 16, 23, 4, 11, 16, 23, 4, 11, 16, 23,
   6, 10, 15, 21, 6, 10, 15, 21, 6, 10, 15, 21, 6, 10, 15, 21]

/-- One MD5 operation (round `i`) on state `(a, b, c, d)` with message words `M`. -/
def md5Round (M : List Nat) (st : Nat × Nat × Nat × Nat) (i : Nat) : Nat × Nat × Nat × Nat :=
  let a := st.1
  let b := st.2.1
  let c := st.2.2.1
  let d := st.2.2.2
  let fg : Nat × Nat :=
    if i < 16 then (or32 (and32 b c) (and32 (not32 b) d), i)
    else if i < 32 then (or32 (and32 d b) (and32 (not32 d) c), (5 * i + 1) % 16)
    else if i < 48 then (xor32 b (xor32 c d), (3 * i + 5) % 16)
    else (xor32 c (or32 b (not32 d)), (7 * i) % 16)
  let t := add32 (add32 (add32 fg.1 a) (md5K.getD i 0)) (M.getD fg.2 0)
  (d, add32 b (rotl32 t (md5S.getD i 0)), b, c)

/-- Process one 512-bit chunk. -/
def md5Chunk (st : Nat × Nat × Nat × Nat) (M : List Nat) : Nat × Nat × Nat × Nat :=
  let r := (List.range 64).foldl (md5Round M) st
  (add32 st.1 r.1, add32 st.2.1 r.2.1, add32 st.2.2.1 r.2.2.1, add32 st.2.2.2 r.2.2.2)

/-- Process the padded byte stream 64 bytes at a time (fuelled for structural
recursion; fuel is the byte count, which strictly dominates the chunk count). -/
def md5Chunks : Nat → (Nat × Nat × Nat × Nat) → List Nat → Nat × Nat × Nat × Nat
  | 0, st, _ => st
  | _, st, [] => st
  | fuel+1, st, bytes => md5Chunks fuel (md5Chunk st (toWordsLE (bytes.take 64))) (bytes.drop 64)

/-- MD5 digest of a byte list: 16 bytes. -/
def md5Bytes (msg : List Nat) : List Nat :=
  let padded := md5Pad msg
  let r := md5Chunks padded.length (0x67452301, 0xefcdab89, 0x98badcfe, 0x10325476) padded
  leBytes r.1 4 ++ leBytes r.2.1 4 ++ leBytes r.2.2.1 4 ++ leBytes r.2.2.2 4

/-- UTF-8 encoding of one character (the Rust `String` payload is hashed as its
UTF-8 bytes). -/
def utf8Char (c : Char) : List Nat :=
  let n := c.toNat
  if n < 128 then [n]
  else if n < 2048 then [192 + n / 64, 128 + n % 64]
  else if n < 65536 then [224 + n / 4096, 128 + n / 64 % 64, 128 + n % 64]
  else [240 + n / 262144, 128 + n / 4096 % 64, 128 + n / 64 % 64, 128 + n % 64]

def strBytes (s : String) : List Nat := (s.data.map utf8Char).flatten

/-- `Md5::digest` of a Rust `String`, as in `hasher.update(&payload)`. -/
def md5String (s : String) : List Nat := md5Bytes (strBytes s)

/-! ## Lowercase hex decoding into a 16-byte buffer
(models `base16ct::lower::decode(expect, &mut [0u8; 16])` followed by the
comparison of the whole 16-byte buffer in main.rs:339-347: the crate rejects
odd-length input, input longer than the buffer, and non-lowercase-hex bytes;
on success the decoded bytes sit at the front of the zero-initialised buffer). -/

def hexVal (c : Char) : Option Nat :=
  if '0' ≤ c ∧ c ≤ '9' then some (c.toNat - 48)
  else if 'a' ≤ c ∧ c ≤ 'f' then some (c.toNat - 87)
  else none

def hexPairs : List Char → Option (List Nat)
  | [] => some []
  | [_] => none
  | c1 :: c2 :: rest =>
      match hexVal c1, hexVal c2, hexPairs rest with
      | some h, some l, some t => some ((16 * h + l) :: t)
      | _, _, _ => none

/-- The 16-byte comparison buffer `expect_buf` after a successful
`base16ct::lower::decode`, or `none` if decoding fails. -/
def hexDecode16 (s : String) : Option (List Nat) :=
  if s.data.length > 32 then none
  else (hexPairs s.data).map (fun bs => bs ++ List.replicate (16 - bs.length) 0)

/-- The checksum verification of main.rs:336-347: `true` iff hex decoding of
the declared hash succeeds and the buffer equals the MD5 digest of `payload`
byte for byte (no `fail_payload_md5` increment). -/
def md5Check (expect : String) (payload : String) : Bool :=
  match hexDecode16 expect with
  | some buf => buf == md5String payload
  | none => false

/-! ## Data model (main.rs:126-201) -/

/-- `CompileId` (main.rs:127-131): `u32` fields modelled as `Nat`. -/
structure CompileId where
  frame_id : Nat
  frame_compile_id : Nat
  attempt : Nat
deriving DecidableEq

/-- `Display for CompileId` (main.rs:133-141): `[f/c]`, with `_attempt`
appended before `]` when `attempt != 0`. -/
def CompileId.display (c : CompileId) : String :=
  "[" ++ toString c.frame_id ++ "/" ++ toString c.frame_compile_id ++
    (if c.attempt ≠ 0 then "_" ++ toString c.attempt else "") ++ "]"

/-- The human-readable label of an optional compile id used by the final
report (main.rs:379): `x.map_or("(unknown)".to_string(), |e| e.to_string())`. -/
def compileIdLabel : Option CompileId → String
  | none => "(unknown)"
  | some c => c.display

/-- `FrameSummary` (main.rs:152-157): interned filename id (`u32`), line
(`i32`), function name. -/
structure FrameSummary where
  filename : Nat
  line : Int
  name : String
deriving DecidableEq

/-- A captured call stack, outermost frame first (main.rs:188). -/
def StackSummary := List FrameSummary

/-! `StackTrieNode` (main.rs:70-75): terminal markers plus insertion-ordered
children.  The `FxIndexMap` is modelled as an association list in which a
fresh key is appended at the end and an existing key keeps its position; the
association list is a dedicated inductive (`ChildList`) mutually defined with
the node type, so that all trie operations are structurally recursive and
evaluate inside `decide`/`rfl`. -/
mutual

inductive StackTrieNode where
  | mk : List String → ChildList → StackTrieNode

inductive ChildList where
  | nil : ChildList
  | cons : FrameSummary → StackTrieNode → ChildList → ChildList

end

/-- `children.len()`. -/
def ChildList.len : ChildList → Nat
  | .nil => 0
  | .cons _ _ tl => tl.len + 1

def StackTrieNode.terminal : StackTrieNode → List String
  | .mk t _ => t

def StackTrieNode.children : StackTrieNode → ChildList
  | .mk _ c => c

/-- The `Default` node: empty terminal list, no children. -/
def StackTrieNode.empty : StackTrieNode := .mk [] .nil

/-- Lookup in the children map. -/
def findChild : ChildList → FrameSummary → Option StackTrieNode
  | .nil, _ => none
  | .cons k v tl, f => if k = f then some v else findChild tl f

/-- Store a value for key `f`: replace in place if present (IndexMap keeps the
position), append at the end otherwise. -/
def setChild : ChildList → FrameSummary → StackTrieNode → ChildList
  | .nil, f, v => .cons f v .nil
  | .cons k w tl, f, v => if k = f then .cons k v tl else .cons k w (setChild tl f v)

/-- `StackTrieNode::insert` (main.rs:78-84): walk/create one child per frame in
order (`children.entry(frame).or_default()`), then push the terminal marker at
the node reached. -/
def StackTrieNode.insert : StackTrieNode → List FrameSummary → String → StackTrieNode
  | .mk term ch, [], m => .mk (term ++ [m]) ch
  | .mk term ch, f :: rest, m =>
      .mk term (setChild ch f (((findChild ch f).getD StackTrieNode.empty).insert rest m))

/-- Follow a path of frames from a node. -/
def findPath : StackTrieNode → List FrameSummary → Option StackTrieNode
  | t, [] => some t
  | t, f :: rest =>
      match findChild t.children f with
      | some c => findPath c rest
      | none => none

/-- Terminal markers at the end of a path (empty when the path is absent). -/
def terminalAt (t : StackTrieNode) (s : List FrameSummary) : List String :=
  match findPath t s with
  | some n => n.terminal
  | none => []

/-! ## Intern table (main.rs:26, 355-358) — `FxHashMap<u32, String>` as an
association list; `insert` overwrites in place or appends. -/

def internInsert : List (Nat × String) → Nat → String → List (Nat × String)
  | [], i, s => [(i, s)]
  | (j, t) :: tl, i, s => if j = i then (i, s) :: tl else (j, t) :: internInsert tl i s

def lookupIntern : List (Nat × String) → Nat → Option String
  | [], _ => none
  | (j, t) :: tl, i => if j = i then some t else lookupIntern tl i

/-! ## Frame rendering (main.rs:159-186) -/

/-- `html_escape::encode_text`: replaces the three text-significant characters
`&`, `<`, `>` by their entities. -/
def encodeText (s : String) : String :=
  String.join (s.data.map fun c =>
    if c = '&' then "&amp;"
    else if c = '<' then "&lt;"
    else if c = '>' then "&gt;"
    else String.mk [c])

/-- Rust `str::split` on a literal pattern: non-overlapping occurrences left to
right; implemented with fuel (the list length) for structural recursion. -/
def splitSepFuel (sep : List Char) : Nat → List Char → List Char → List (List Char)
  | _, [], acc => [acc.reverse]
  | 0, l, acc => [acc.reverse ++ l]
  | fuel+1, c :: tl, acc =>
      if sep.isPrefixOf (c :: tl) then
        acc.reverse :: splitSepFuel sep fuel ((c :: tl).drop sep.length) []
      else
        splitSepFuel sep fuel tl (c :: acc)

def splitSep (s sep : String) : List String :=
  (splitSepFuel sep.data s.data.length s.data []).map String.mk

/-- `simplify_filename` (main.rs:159-172): take the part after the first
occurrence of either build-root marker (Rust `parts[1]`, i.e. the second
piece of the split), else the filename unchanged. -/
def simplify_filename (filename : String) : String :=
  let parts := splitSep filename "#link-tree/"
  if parts.length > 1 then parts.getD 1 ""
  else
    let parts := splitSep filename "1e322330-seed-nspid4026531836_cgpid26364902-ns-4026531840/"
    if parts.length > 1 then parts.getD 1 "" else filename

/-- `Display for FrameSummary` (main.rs:174-186), with the intern table passed
explicitly (the Rust code reads the global `INTERN_TABLE`): resolves the
filename id at render time, substituting `"(unknown)"` for absent ids. -/
def frameFmt (tbl : List (Nat × String)) (fr : FrameSummary) : String :=
  let filename := (lookupIntern tbl fr.filename).getD "(unknown)"
  encodeText (simplify_filename filename) ++ ":" ++ toString fr.line ++ " in " ++ encodeText fr.name

/-! ## Trie rendering (main.rs:86-115) — `fmt_inner`.  The Rust loop tests
`self.children.len() > 1` on every iteration; since `self.children` is not
mutated during the loop the flag is constant, and it is passed once to the
list walker (`fmtList`) here. -/

def spacesStr (n : Nat) : String := String.mk (List.replicate n ' ')

mutual

/-- `StackTrieNode::fmt_inner`, with the intern table passed explicitly (the
Rust frame `Display` reads the global `INTERN_TABLE`). -/
def fmtInner (tbl : List (Nat × String)) : StackTrieNode → Nat → String
  | .mk _ ch, indent => fmtList tbl (decide (ch.len > 1)) ch indent

/-- The `for (frame, node) in self.children.iter()` loop body: a line made of
`indent` spaces, then `"- "` (more than one child) or `"  "` (at most one
child), then the node's terminal markers joined with no separator, then the
frame text; followed by the subtree at `indent + 2` (branching) or `indent`
(chain). -/
def fmtList (tbl : List (Nat × String)) : Bool → ChildList → Nat → String
  | _, .nil, _ => ""
  | multi, .cons fr node tl, indent =>
      let star := String.join node.terminal
      if multi then
        spacesStr indent ++ "- " ++ star ++ frameFmt tbl fr ++ "\n" ++
          fmtInner tbl node (indent + 2) ++ fmtList tbl multi tl indent
      else
        spacesStr indent ++ "  " ++ star ++ frameFmt tbl fr ++ "\n" ++
          fmtInner tbl node indent ++ fmtList tbl multi tl indent

end

/-! ## The glog header matcher (main.rs:237-244, 272-275, 285)

The regex

  `(?<level>[VIWEC])(?<month>\d{2})(?<day>\d{2}) `
  `(?<hour>\d{2}):(?<minute>\d{2}):(?<second>\d{2}).(?<millisecond>\d{6}) `
  `(?<thread>\d+)(?<pathname>[^:]+):(?<line>\d+)\] (?<payload>.)`

is compiled by hand into a character-level matcher.  At a fixed starting
position the match is deterministic: the prefix up to the thread field is
fixed-width (22 characters); `(?<thread>\d+)(?<pathname>[^:]+):` can only use
the first `':'` at offset ≥ 22 (neither `\d` nor `[^:]` can cross a colon),
and it is satisfiable iff the character at offset 22 is a digit and the colon
leaves at least one thread digit and one pathname character; `(?<line>\d+)\]`
can only be the maximal digit run after that colon (a shorter run would be
followed by a digit, not `']'`).  The bare `.` of the regex matches any
character except `'\n'`.  `Regex::captures` returns the leftmost match, so the
search tries ascending start positions. -/

def isDigitCh (c : Char) : Bool := decide ('0' ≤ c) && decide (c ≤ '9')

/-- `[VIWEC]`. -/
def isLevelCh (c : Char) : Bool :=
  (c == 'V') || (c == 'I') || (c == 'W') || (c == 'E') || (c == 'C')

/-- Character of `cs` at absolute index `i`. -/
def charAt : List Char → Nat → Option Char
  | [], _ => none
  | c :: _, 0 => some c
  | _ :: tl, i+1 => charAt tl i

/-- `true` iff index `i` exists and its character satisfies `p`. -/
def charTest (cs : List Char) (i : Nat) (p : Char → Bool) : Bool :=
  match charAt cs i with
  | some c => p c
  | none => false

/-- Absolute index of the first `':'` at index ≥ `i`. -/
def findColonIdx : List Char → Nat → Option Nat
  | [], _ => none
  | c :: tl, 0 => if c == ':' then some 0 else (findColonIdx tl 0).map (· + 1)
  | _ :: tl, i+1 => (findColonIdx tl i).map (· + 1)

/-- Length of the maximal digit run starting at absolute index `i`. -/
def digitRunFrom : List Char → Nat → Nat
  | [], _ => 0
  | c :: tl, 0 => if isDigitCh c then digitRunFrom tl 0 + 1 else 0
  | _ :: tl, i+1 => digitRunFrom tl i

/-- Match of the header grammar minus the final payload character, starting at
position `p`; returns the index just past `"] "` (where `payload` starts). -/
def glogScan (cs : List Char) (p : Nat) : Option Nat :=
  if charTest cs p isLevelCh
      && charTest cs (p+1) isDigitCh && charTest cs (p+2) isDigitCh
      && charTest cs (p+3) isDigitCh && charTest cs (p+4) isDigitCh
      && charTest cs (p+5) (· == ' ')
      && charTest cs (p+6) isDigitCh && charTest cs (p+7) isDigitCh
      && charTest cs (p+8) (· == ':')
      && charTest cs (p+9) isDigitCh && charTest cs (p+10) isDigitCh
      && charTest cs (p+11) (· == ':')
      && charTest cs (p+12) isDigitCh && charTest cs (p+13) isDigitCh
      && charTest cs (p+14) (fun c => !(c == '\n'))
      && charTest cs (p+15) isDigitCh && charTest cs (p+16) isDigitCh
      && charTest cs (p+17) isDigitCh && charTest cs (p+18) isDigitCh
      && charTest cs (p+19) isDigitCh && charTest cs (p+20) isDigitCh
      && charTest cs (p+21) (· == ' ')
      && charTest cs (p+22) isDigitCh then
    match findColonIdx cs (p+22) with
    | none => none
    | some c =>
        if p + 24 ≤ c then
          if decide (1 ≤ digitRunFrom cs (c+1))
              && charTest cs (c+1+digitRunFrom cs (c+1)) (· == ']')
              && charTest cs (c+2+digitRunFrom cs (c+1)) (· == ' ')
          then some (c+3+digitRunFrom cs (c+1)) else none
        else none
  else none

/-- Full match at position `p`: the scan followed by one payload character
(any character but `'\n'`).  Returns the byte offset where `payload` begins,
i.e. `caps.name("payload").unwrap().start()`. -/
def glogMatchAt (cs : List Char) (p : Nat) : Option Nat :=
  match glogScan cs p with
  | some e => if charTest cs e (fun c => !(c == '\n')) then some e else none
  | none => none

/-- Leftmost-match search, positions `p, p+1, ...` (fuelled). -/
def glogSearch (cs : List Char) : Nat → Nat → Option Nat
  | 0, _ => none
  | fuel+1, p =>
      match glogMatchAt cs p with
      | some e => some e
      | none => glogSearch cs fuel (p+1)

/-- `re_glog.captures(&line)` reduced to what main.rs uses: the start of the
`payload` capture group, or `none` when the regex does not match. -/
def glogPayloadStart (cs : List Char) : Option Nat :=
  glogSearch cs (cs.length + 1) 0

/-- `&line[caps.name("payload").unwrap().start()..]` (main.rs:285): the
payload substring of a matched line. -/
def glogPayload (line : String) : Option String :=
  (glogPayloadStart line.data).map (fun e => String.mk (line.data.drop e))

/-- A line that matches the whole header grammar through the literal `"] "`
with no characters after it: the scan starting at position 0 consumes the
entire line. -/
def headerOnlyLine (cs : List Char) : Bool :=
  glogScan cs 0 == some cs.length

/-! ## Envelope (main.rs:190-201) -/

/-- The decoded per-line record.  `rank` is `Option<u32>`, `compile_id` the
flattened optional `CompileId`, `has_payload` the declared hex hash,
`compile_stack` / `dynamo_output_graph` / `str` the recognized event fields. -/
structure Envelope where
  rank : Option Nat
  compile_id : Option CompileId
  has_payload : Option String
  compile_stack : Option (List FrameSummary)
  dynamo_output_graph : Option Bool
  str : Option (String × Nat)

/-! ## Payload reassembly (main.rs:325-335) -/

/-- `true` iff the line starts with `'\t'` (the `next_if` guard). -/
def startsTab (l : String) : Bool :=
  match l.data with
  | c :: _ => c == '\t'
  | [] => false

/-- Consume the maximal run of tab-prefixed lines, stripping the leading tab
of each (`&payload_line[1..]`); the first non-tab line is not consumed. -/
def takeTabbed : List String → List String × List String
  | [] => ([], [])
  | l :: rest =>
      if startsTab l then
        let r := takeTabbed rest
        (String.mk (l.data.drop 1) :: r.1, r.2)
      else ([], l :: rest)

/-- Join with `"\n"` between lines and none after the last (the `first` flag
loop of main.rs:327-335). -/
def joinNL : List String → String
  | [] => ""
  | [x] => x
  | x :: tl => x ++ "\n" ++ joinNL tl

/-- The reassembled payload and the lines left for the outer loop. -/
def reassemble (lines : List String) : String × List String :=
  let r := takeTabbed lines
  (joinNL r.1, r.2)

/-! ## Loop state (main.rs:143-150, 246-262): statistics, rank baseline, the
trie, the directory index, the intern table, and the Sink effects (created
sub-directories and written files, as relative paths under the out dir). -/

structure LoopState where
  ok : Nat
  other_rank : Nat
  fail_glog : Nat
  fail_json : Nat
  fail_payload_md5 : Nat
  expected_rank : Option (Option Nat)
  stack_trie : StackTrieNode
  directory : List (Option CompileId × List String)
  intern_table : List (Nat × String)
  dirs_created : List String
  writes : List (String × String)

def initState : LoopState :=
  { ok := 0, other_rank := 0, fail_glog := 0, fail_json := 0, fail_payload_md5 := 0
    expected_rank := none, stack_trie := StackTrieNode.empty, directory := []
    intern_table := [], dirs_created := [], writes := [] }

/-- `directory.entry(e.compile_id).or_default()` key part: add the binding
`k ↦ []` at the end if `k` is absent (`FxHashMap` modelled as an association
list; the claims only consult membership and per-key values). -/
def entryOrDefault : List (Option CompileId × List String) → Option CompileId →
    List (Option CompileId × List String)
  | [], k => [(k, [])]
  | (j, v) :: tl, k => if j = k then (j, v) :: tl else (j, v) :: entryOrDefault tl k

def lookupDir : List (Option CompileId × List String) → Option CompileId → Option (List String)
  | [], _ => none
  | (j, v) :: tl, k => if j = k then some v else lookupDir tl k

/-- `compile_directory.push(path)`: append to the value of key `k`. -/
def pushDir : List (Option CompileId × List String) → Option CompileId → String →
    List (Option CompileId × List String)
  | [], k, p => [(k, [p])]
  | (j, v) :: tl, k, p => if j = k then (j, v ++ [p]) :: tl else (j, v) :: pushDir tl k p

/-- The compile-id directory name (main.rs:314-319): `"unknown"` when absent,
else `"{frame_id}_{frame_compile_id}_{attempt}"`. -/
def compileIdDir : Option CompileId → String
  | none => "unknown"
  | some c =>
      toString c.frame_id ++ "_" ++ toString c.frame_compile_id ++ "_" ++ toString c.attempt

/-- Everything main.rs does for a record that has passed the rank filter
(lines 313-365): sub-directory creation, directory-index entry, payload
reassembly and checksum, `ok`, and the three event dispatches, in source
order.  Returns the new state and the lines remaining for the outer loop. -/
def handleRecord (e : Envelope) (rest : List String) (st : LoopState) : LoopState × List String :=
  let dir := compileIdDir e.compile_id
  let st1 := { st with dirs_created := st.dirs_created ++ [dir],
                       directory := entryOrDefault st.directory e.compile_id }
  let pr : String × List String × LoopState :=
    match e.has_payload with
    | some expect =>
        let r := reassemble rest
        (r.1, r.2,
          if md5Check expect r.1 then st1
          else { st1 with fail_payload_md5 := st1.fail_payload_md5 + 1 })
    | none => ("", rest, st1)
  let payload := pr.1
  let rest' := pr.2.1
  let st2 := pr.2.2
  let st3 := { st2 with ok := st2.ok + 1 }
  let st4 :=
    match e.compile_stack with
    | some stack => { st3 with stack_trie := st3.stack_trie.insert stack "* " }
    | none => st3
  let st5 :=
    match e.str with
    | some si => { st4 with intern_table := internInsert st4.intern_table si.2 si.1 }
    | none => st4
  let st6 :=
    match e.dynamo_output_graph with
    | some _ =>
        { st5 with writes := st5.writes ++ [(dir ++ "/dynamo_output_graph.txt", payload)],
                   directory := pushDir st5.directory e.compile_id
                     (dir ++ "/dynamo_output_graph.txt") }
    | none => st5
  (st6, rest')

/-- The rank filter (main.rs:298-311): before any baseline, adopt this
record's rank (and fall through to processing); afterwards, a differing rank
increments `other_rank` and discards the record. -/
def rankStep (e : Envelope) (rest : List String) (st : LoopState) : LoopState × List String :=
  match st.expected_rank with
  | some r =>
      if r ≠ e.rank then ({ st with other_rank := st.other_rank + 1 }, rest)
      else handleRecord e rest st
  | none => handleRecord e rest { st with expected_rank := some e.rank }

/-- One iteration of the `while let` loop for the line at the head: header
match, envelope decode (`decode` stands for `serde_json::from_str::<Envelope>`,
an external crate), rank filter, then `handleRecord`. -/
def stepLine (decode : String → Option Envelope) (line : String) (rest : List String)
    (st : LoopState) : LoopState × List String :=
  match glogPayload line with
  | none => ({ st with fail_glog := st.fail_glog + 1 }, rest)
  | some payload =>
      match decode payload with
      | none => ({ st with fail_json := st.fail_json + 1 }, rest)
      | some e => rankStep e rest st

/-- The whole ingestion loop, fuelled for structural recursion (each step
consumes at least the head line, so `lines.length` fuel suffices, see
`runLoopFuel_enough`). -/
def runLoopFuel (decode : String → Option Envelope) :
    Nat → List String → LoopState → LoopState
  | 0, _, st => st
  | _+1, [], st => st
  | fuel+1, line :: rest, st =>
      let r := stepLine decode line rest st
      runLoopFuel decode fuel r.2 r.1

/-- Run the ingestion loop on a whole log from the initial state. -/
def runLog (decode : String → Option Envelope) (lines : List String) : LoopState :=
  runLoopFuel decode lines.length lines initState

/-- Insertion-ordered view of a children map, for stating rendering facts. -/
def ChildList.toList : ChildList → List (FrameSummary × StackTrieNode)
  | .nil => []
  | .cons f n tl => (f, n) :: tl.toList

/-- Count of `'\n'` characters in a string. -/
def countNL (s : String) : Nat := s.data.count '\n'

/-! ## Concrete fixtures used by the claim theorems and witnesses -/

/-- A well-formed glog header line carrying the given payload substring. -/
def glogLine (p : String) : String := "I0203 04:05:06.123456 789 x.py:10] " ++ p

def frA : FrameSummary := ⟨1, 10, "fa"⟩

def frB : FrameSummary := ⟨1, 20, "fb"⟩

def frC : FrameSummary := ⟨2, 30, "fc"⟩

def frD : FrameSummary := ⟨2, 40, "fd"⟩

/-- An envelope carrying only a rank. -/
def envRank (r : Nat) : Envelope := ⟨some r, none, none, none, none, none⟩

/-- An envelope carrying only a compile stack. -/
def envStack (stack : List FrameSummary) : Envelope := ⟨none, none, none, some stack, none, none⟩

/-- An envelope carrying only an interning record. -/
def envStr (s : String) (i : Nat) : Envelope := ⟨none, none, none, none, none, some (s, i)⟩

/-- Decoder for the rank-filter scenario: payload `"a"` is a rank-2 record,
payload `"b"` a rank-5 record. -/
def decodeC1 : String → Option Envelope := fun s =>
  if s == "a" then some (envRank 2) else if s == "b" then some (envRank 5) else none

/-- Ranks 2, 2, 5, 2 in order. -/
def logC1 : List String := [glogLine "a", glogLine "a", glogLine "b", glogLine "a"]

/-- Decoder for the late-interning scenario: payload `"s"` inserts the stack
`[frA]`, payload `"i"` then registers filename id 1. -/
def decodeC6 : String → Option Envelope := fun s =>
  if s == "s" then some (envStack [frA])
  else if s == "i" then some (envStr "fa.py" 1) else none

def logC6 : List String := [glogLine "s", glogLine "i"]

/-- The end-to-end record of the spec: compile id {1,0,0}, a declared (valid)
payload hash, and `dynamo_output_graph` present. -/
def envGraph : Envelope :=
  ⟨some 0, some ⟨1, 0, 0⟩, some "84eb0090114b7da7a28209e71259f4cc", none, some true, none⟩

def decodeC7 : String → Option Envelope := fun s => if s == "g" then some envGraph else none

def logC7 : List String := [glogLine "g", "\tgraph body"]

/-- A surviving record that triggers no event at all. -/
def envPlain : Envelope := ⟨none, none, none, none, none, none⟩

def decodeC8 : String → Option Envelope := fun s => if s == "n" then some envPlain else none

def logC8 : List String := [glogLine "n"]

/-! ## Shared lemmas -/

theorem handleRecord_eq (e : Envelope) (rest : List String) (st : LoopState) :
    handleRecord e rest st =
      ({ ok := st.ok + 1
         other_rank := st.other_rank
         fail_glog := st.fail_glog
         fail_json := st.fail_json
         fail_payload_md5 := st.fail_payload_md5 +
           (match e.has_payload with
            | some expect => if md5Check expect (reassemble rest).1 then 0 else 1
            | none => 0)
         expected_rank := st.expected_rank
         stack_trie :=
           (match e.compile_stack with
            | some stack => st.stack_trie.insert stack "* "
            | none => st.stack_trie)
         directory :=
           (match e.dynamo_output_graph with
            | some _ => pushDir (entryOrDefault st.directory e.compile_id) e.compile_id
                (compileIdDir e.compile_id ++ "/dynamo_output_graph.txt")
            | none => entryOrDefault st.directory e.compile_id)
         intern_table :=
           (match e.str with
            | some si => internInsert st.intern_table si.2 si.1
            | none => st.intern_table)
         dirs_created := st.dirs_created ++ [compileIdDir e.compile_id]
         writes :=
           (match e.dynamo_output_graph with
            | some _ => st.writes ++ [(compileIdDir e.compile_id ++ "/dynamo_output_graph.txt",
                (match e.has_payload with
                 | some _ => (reassemble rest).1
                 | none => ""))]
            | none => st.writes) },
       (match e.has_payload with
        | some _ => (reassemble rest).2
        | none => rest)) := by
  cases hp : e.has_payload with
  | none =>
      cases hs : e.compile_stack <;> cases hi : e.str <;> cases hd : e.dynamo_output_graph <;>
        simp only [handleRecord, hp, hs, hi, hd] <;> rfl
  | some expect =>
      cases hm : md5Check expect (reassemble rest).1 <;>
        cases hs : e.compile_stack <;> cases hi : e.str <;> cases hd : e.dynamo_output_graph <;>
        simp only [handleRecord, hp, hs, hi, hd, hm] <;> rfl

theorem findChild_setChild : ∀ (ch : ChildList) (f : FrameSummary) (v : StackTrieNode),
    findChild (setChild ch f v) f = some v
  | .nil, f, v => by simp [setChild, findChild]
  | .cons k w tl, f, v => by
      by_cases h : k = f
      · simp [setChild, h, findChild]
      · simp [setChild, h, findChild, findChild_setChild tl f v]

theorem terminalAt_empty (s : List FrameSummary) : terminalAt StackTrieNode.empty s = [] := by
  cases s with
  | nil => rfl
  | cons f rest => rfl

theorem terminalAt_cons (term : List String) (ch : ChildList) (f : FrameSummary)
    (rest : List FrameSummary) :
    terminalAt (.mk term ch) (f :: rest) =
      match findChild ch f with
      | some c => terminalAt c rest
      | none => [] := by
  cases hv : findChild ch f with
  | some c => simp [terminalAt, findPath, StackTrieNode.children, hv]
  | none => simp [terminalAt, findPath, StackTrieNode.children, hv]

theorem terminalAt_insert (t : StackTrieNode) (s : List FrameSummary) (m : String) :
    terminalAt (t.insert s m) s = terminalAt t s ++ [m] := by
  induction s generalizing t with
  | nil =>
      cases t with
      | mk term ch => rfl
  | cons f rest ih =>
      cases t with
      | mk term ch =>
          show terminalAt (.mk term (setChild ch f
            (((findChild ch f).getD StackTrieNode.empty).insert rest m))) (f :: rest) = _
          rw [terminalAt_cons, findChild_setChild, terminalAt_cons]
          show terminalAt (((findChild ch f).getD StackTrieNode.empty).insert rest m) rest = _
          rw [ih]
          cases hv : findChild ch f with
          | some c => simp [hv]
          | none => simp [hv, terminalAt_empty]

theorem takeTabbed_append (ts rest : List String)
    (h1 : ∀ l ∈ ts, startsTab l = true)
    (h2 : ∀ l, rest.head? = some l → startsTab l = false) :
    takeTabbed (ts ++ rest) = (ts.map (fun l => String.mk (l.data.drop 1)), rest) := by
  induction ts with
  | nil =>
      cases rest with
      | nil => rfl
      | cons r rs => simp [takeTabbed, h2 r rfl]
  | cons l ls ih =>
      have hl := h1 l (by simp)
      have ihh := ih (fun x hx => h1 x (by simp [hx]))
      simp [takeTabbed, hl, ihh]

theorem countNL_append (a b : String) : countNL (a ++ b) = countNL a + countNL b := by
  have h : (a ++ b).data = a.data ++ b.data := rfl
  simp [countNL, h]

theorem countNL_joinNL (xs : List String) (hne : xs ≠ []) (h0 : ∀ x ∈ xs, countNL x = 0) :
    countNL (joinNL xs) = xs.length - 1 := by
  induction xs with
  | nil => simp at hne
  | cons x tl ih =>
      cases tl with
      | nil => simp [joinNL, h0 x (by simp)]
      | cons y ys =>
          have hx := h0 x (by simp)
          have ihh := ih (by simp) (fun z hz => h0 z (by simp [hz]))
          show countNL (x ++ "\n" ++ joinNL (y :: ys)) = _
          rw [countNL_append, countNL_append, hx, ihh]
          have hn : countNL "\n" = 1 := rfl
          rw [hn]
          simp
          omega

theorem lookupDir_entryOrDefault (d : List (Option CompileId × List String))
    (k : Option CompileId) :
    lookupDir (entryOrDefault d k) k = some ((lookupDir d k).getD []) := by
  induction d with
  | nil => simp [entryOrDefault, lookupDir]
  | cons p tl ih =>
      obtain ⟨j, v⟩ := p
      by_cases h : j = k
      · simp [entryOrDefault, lookupDir, h]
      · simp [entryOrDefault, lookupDir, h, ih]

theorem lookupDir_pushDir (d : List (Option CompileId × List String)) (k : Option CompileId)
    (p : String) (v : List String) (h : lookupDir d k = some v) :
    lookupDir (pushDir d k p) k = some (v ++ [p]) := by
  induction d with
  | nil => simp [lookupDir] at h
  | cons q tl ih =>
      obtain ⟨j, w⟩ := q
      by_cases hj : j = k
      · simp [lookupDir, hj] at h
        simp [pushDir, lookupDir, hj, h]
      · simp [lookupDir, hj] at h
        simp [pushDir, lookupDir, hj, ih h]

/-! ## Claim theorems -/

/-- C1: the Rank Filter adopts the rank of the first successfully decoded
record (possibly absent) as the fixed baseline; a later decoded record with a
different rank only increments `other_rank` and is discarded (no trie
insertion, no file write, no interning, no line consumption), while a record
with the baseline rank is processed and counted in `ok`; on ranks 2, 2, 5, 2
exactly the rank-5 record is rejected and the other three are ok. -/
theorem c1_rank_filter :
    (∀ (e : Envelope) (rest : List String) (st : LoopState) (r : Option Nat),
        st.expected_rank = some r → r ≠ e.rank →
        rankStep e rest st = ({ st with other_rank := st.other_rank + 1 }, rest)) ∧
    (∀ (e : Envelope) (rest : List String) (st : LoopState),
        (rankStep e rest st).1.expected_rank =
          match st.expected_rank with
          | none => some e.rank
          | some r => some r) ∧
    (∀ (e : Envelope) (rest : List String) (st : LoopState) (r : Option Nat),
        st.expected_rank = some r → r = e.rank → rankStep e rest st = handleRecord e rest st) ∧
    (∀ (e : Envelope) (rest : List String) (st : LoopState),
        (handleRecord e rest st).1.ok = st.ok + 1) ∧
    (runLog decodeC1 logC1).ok = 3 ∧ (runLog decodeC1 logC1).other_rank = 1 ∧
    (runLog decodeC1 logC1).expected_rank = some (some 2) := by
  refine ⟨?_, ?_, ?_, ?_, by decide, by decide, by decide⟩
  · intro e rest st r h hne
    simp [rankStep, h, hne]
  · intro e rest st
    cases h : st.expected_rank with
    | none => simp [rankStep, h, handleRecord_eq]
    | some r =>
        by_cases hr : r = e.rank
        · simp [rankStep, h, hr, handleRecord_eq]
        · simp [rankStep, h, hr]
  · intro e rest st r h hr
    simp [rankStep, h, hr]
  · intro e rest st
    simp [handleRecord_eq]

/-- C1 witness: with baseline rank 2 established, a rank-5 record is rejected
with exactly an `other_rank` increment. -/
theorem c1_rank_filter_witness :
    rankStep (envRank 5) [] { initState with expected_rank := some (some 2) } =
      ({ { initState with expected_rank := some (some 2) } with other_rank := 1 }, []) :=
  c1_rank_filter.1 (envRank 5) [] { initState with expected_rank := some (some 2) }
    (some 2) rfl (by decide)

/-- C2: for a record that declares `has_payload`, the Payload Reassembler
consumes exactly the maximal run of immediately following tab-prefixed lines,
strips one leading tab from each, joins them with single newlines and no
trailing newline (N lines give N-1 newlines), and leaves the first
non-tab-prefixed line unconsumed; `"\tabc", "\tdef", "ghi"` reassembles to
`"abc\ndef"` with `"ghi"` left over. -/
theorem c2_payload_reassembler :
    (∀ (ts rest : List String),
        (∀ l ∈ ts, startsTab l = true) →
        (∀ l, rest.head? = some l → startsTab l = false) →
        reassemble (ts ++ rest) =
          (joinNL (ts.map (fun l => String.mk (l.data.drop 1))), rest)) ∧
    (∀ (xs : List String), xs ≠ [] → (∀ x ∈ xs, countNL x = 0) →
        countNL (joinNL xs) = xs.length - 1) ∧
    (∀ (e : Envelope) (rest : List String) (st : LoopState),
        e.has_payload.isSome = true → (handleRecord e rest st).2 = (reassemble rest).2) ∧
    reassemble ["\tabc", "\tdef", "ghi"] = ("abc\ndef", ["ghi"]) := by
  refine ⟨?_, countNL_joinNL, ?_, by decide⟩
  · intro ts rest h1 h2
    simp [reassemble, takeTabbed_append ts rest h1 h2]
  · intro e rest st h
    cases hp : e.has_payload with
    | none => simp [hp] at h
    | some expect => simp [handleRecord_eq, hp]

/-- C2 witness: the general reassembly law applied to the concrete
continuation run, and the newline count at two continuation lines. -/
theorem c2_payload_reassembler_witness :
    reassemble (["\tabc", "\tdef"] ++ ["ghi"]) =
      (joinNL (["\tabc", "\tdef"].map (fun l => String.mk (l.data.drop 1))), ["ghi"]) ∧
    countNL (joinNL ["abc", "def"]) = 1 ∧
    (handleRecord ⟨none, none, some "", none, none, none⟩ ["x"] initState).2 =
      (reassemble ["x"]).2 :=
  ⟨c2_payload_reassembler.1 ["\tabc", "\tdef"] ["ghi"] (by decide) (by decide),
   c2_payload_reassembler.2.1 ["abc", "def"] (by decide) (by decide),
   c2_payload_reassembler.2.2.1 ⟨none, none, some "", none, none, none⟩ ["x"] initState rfl⟩

/-- C4: trie insertion walks from the root creating one child per frame in
order, creating missing nodes empty, and appends the terminal marker at the
final node; inserting [A,B,C] then [A,B,D] yields one node A with single
child B, and B with exactly the children C and D; re-inserting [A,B,C]
appends a second marker at C and creates no node. -/
theorem c4_stack_trie_insert :
    (∀ (t : StackTrieNode) (s : List FrameSummary) (m : String),
        terminalAt (t.insert s m) s = terminalAt t s ++ [m]) ∧
    ((StackTrieNode.empty.insert [frA, frB, frC] "* ").insert [frA, frB, frD] "* " =
      .mk [] (.cons frA (.mk [] (.cons frB (.mk []
        (.cons frC (.mk ["* "] .nil) (.cons frD (.mk ["* "] .nil) .nil))) .nil)) .nil)) ∧
    (((StackTrieNode.empty.insert [frA, frB, frC] "* ").insert [frA, frB, frD] "* ").insert
        [frA, frB, frC] "* " =
      .mk [] (.cons frA (.mk [] (.cons frB (.mk []
        (.cons frC (.mk ["* ", "* "] .nil) (.cons frD (.mk ["* "] .nil) .nil))) .nil)) .nil)) :=
  ⟨terminalAt_insert, rfl, rfl⟩

/-- C6: `register(id, text)` unconditionally overwrites any existing mapping;
resolving at render time returns the most recently registered text or the
placeholder "(unknown)" (rendering never fails); frames keep raw ids in the
trie, so a registration processed after a stack's insertion is still
reflected in that stack's rendered output. -/
theorem c6_intern_table :
    (∀ (tbl : List (Nat × String)) (i : Nat) (s : String),
        lookupIntern (internInsert tbl i s) i = some s) ∧
    (∀ (tbl : List (Nat × String)) (fr : FrameSummary),
        lookupIntern tbl fr.filename = none →
        frameFmt tbl fr = "(unknown)" ++ ":" ++ toString fr.line ++ " in " ++ encodeText fr.name) ∧
    (∀ (st : LoopState) (stack : List FrameSummary) (s : String) (i : Nat)
        (r1 r2 : List String),
        (handleRecord (envStr s i) r2 (handleRecord (envStack stack) r1 st).1).1.stack_trie =
          st.stack_trie.insert stack "* " ∧
        (handleRecord (envStr s i) r2 (handleRecord (envStack stack) r1 st).1).1.intern_table =
          internInsert st.intern_table i s ∧
        (handleRecord (envStack stack) r1 st).1.intern_table = st.intern_table ∧
        fmtInner
          (handleRecord (envStr s i) r2 (handleRecord (envStack stack) r1 st).1).1.intern_table
          (handleRecord (envStr s i) r2 (handleRecord (envStack stack) r1 st).1).1.stack_trie 0 =
          fmtInner (internInsert st.intern_table i s) (st.stack_trie.insert stack "* ") 0) ∧
    fmtInner (runLog decodeC6 logC6).intern_table (runLog decodeC6 logC6).stack_trie 0 =
      "  * fa.py:10 in fa\n" := by
  refine ⟨?_, ?_, ?_, by decide⟩
  · intro tbl i s
    induction tbl with
    | nil => simp [internInsert, lookupIntern]
    | cons p tl ih =>
        obtain ⟨j, t⟩ := p
        by_cases h : j = i
        · simp [internInsert, lookupIntern, h]
        · simp [internInsert, lookupIntern, h, ih]
  · intro tbl fr h
    have hc : encodeText (simplify_filename "(unknown)") = "(unknown)" := by decide
    simp [frameFmt, h, hc]
  · intro st stack s i r1 r2
    refine ⟨by simp [handleRecord_eq, envStr, envStack], by simp [handleRecord_eq, envStr, envStack],
      by simp [handleRecord_eq, envStack], ?_⟩
    have h1 : (handleRecord (envStr s i) r2 (handleRecord (envStack stack) r1 st).1).1.stack_trie =
        st.stack_trie.insert stack "* " := by simp [handleRecord_eq, envStr, envStack]
    have h2 : (handleRecord (envStr s i) r2 (handleRecord (envStack stack) r1 st).1).1.intern_table =
        internInsert st.intern_table i s := by simp [handleRecord_eq, envStr, envStack]
    rw [h1, h2]

/-- C6 witness: resolving a never-registered id renders the fixed placeholder,
via the theorem's resolution clause at the empty table and frame `frA`. -/
theorem c6_intern_table_witness :
    frameFmt [] frA = "(unknown)" ++ ":" ++ toString frA.line ++ " in " ++ encodeText frA.name :=
  c6_intern_table.2.1 [] frA rfl

/-- C3: for a record with a declared hash, a hex-decode failure of the
declared string or a mismatch of the 16-byte comparison buffer against the
digest of the reassembled payload (the decoded bytes sit zero-padded in that
buffer) increments `fail_payload_checksum` and changes nothing else relative
to a record with a passing hash: the record is still counted `ok`, a
`dynamo_output_graph`-flagged record still writes the payload verbatim, and
the loop continues with the same remaining lines. -/
theorem c3_checksum_nonfatal :
    ∀ (e : Envelope) (rest : List String) (st : LoopState) (good bad : String),
      md5Check good (reassemble rest).1 = true →
      md5Check bad (reassemble rest).1 = false →
      (handleRecord { e with has_payload := some bad } rest st =
        ({ (handleRecord { e with has_payload := some good } rest st).1 with
            fail_payload_md5 :=
              (handleRecord { e with has_payload := some good } rest st).1.fail_payload_md5 + 1 },
         (handleRecord { e with has_payload := some good } rest st).2)) ∧
      (handleRecord { e with has_payload := some bad } rest st).1.ok = st.ok + 1 ∧
      (∀ b : Bool, e.dynamo_output_graph = some b →
        (handleRecord { e with has_payload := some bad } rest st).1.writes =
          st.writes ++ [(compileIdDir e.compile_id ++ "/dynamo_output_graph.txt",
            (reassemble rest).1)]) := by
  intro e rest st good bad hg hb
  refine ⟨?_, by simp [handleRecord_eq, hb], ?_⟩
  · simp [handleRecord_eq, hg, hb]
  · intro b hbool
    simp [handleRecord_eq, hb, hbool]

set_option maxRecDepth 1000000 in
/-- C3 witness: payload `"hello"`, correct hash versus an undecodable hash
(`"zz"` is not hex), on a `dynamo_output_graph`-flagged record. -/
theorem c3_checksum_nonfatal_witness :
    (handleRecord { envGraph with has_payload := some "zz" } ["\thello"] initState).1.ok =
      initState.ok + 1 ∧
    (handleRecord { envGraph with has_payload := some "zz" } ["\thello"] initState).1.writes =
      initState.writes ++ [(compileIdDir envGraph.compile_id ++ "/dynamo_output_graph.txt",
        (reassemble ["\thello"]).1)] :=
  ⟨(c3_checksum_nonfatal envGraph ["\thello"] initState
      "5d41402abc4b2a76b9719d911017c592" "zz" (by decide) (by decide)).2.1,
   (c3_checksum_nonfatal envGraph ["\thello"] initState
      "5d41402abc4b2a76b9719d911017c592" "zz" (by decide) (by decide)).2.2 true rfl⟩

set_option maxRecDepth 1000000 in
/-- C9 counterexample: a record whose `has_payload` is present but equal to
the empty string is NOT observed as "no verification": the empty hex string
decodes successfully to zero bytes, the all-zero 16-byte buffer mismatches
the MD5 digest of the (empty) reassembled payload, and `fail_payload_md5` is
incremented — the claim says it is never incremented for such a record. -/
theorem c9_empty_hash_counterexample :
    (handleRecord ⟨none, none, some "", none, none, none⟩ [] initState).1.fail_payload_md5 =
      initState.fail_payload_md5 + 1 := by decide

/-- C9 amended: a present-but-empty `has_payload` still triggers reassembly
and verification; the empty string hex-decodes to zero bytes, so the all-zero
comparison buffer is compared against the payload digest and
`fail_payload_checksum` is incremented whenever that digest is not all zero
bytes (hence in particular for every payload whose MD5 digest is nonzero,
e.g. the empty payload). -/
theorem c9_empty_hash :
    ∀ (e : Envelope) (rest : List String) (st : LoopState),
      e.has_payload = some "" →
      md5String (reassemble rest).1 ≠ List.replicate 16 0 →
      (handleRecord e rest st).1.fail_payload_md5 = st.fail_payload_md5 + 1 := by
  intro e rest st h hne
  have hdec : hexDecode16 "" = some (List.replicate 16 0) := by decide
  have hm : md5Check "" (reassemble rest).1 = false := by
    simp [md5Check, hdec]
    exact fun hc => hne hc.symm
  simp [handleRecord_eq, h, hm]

set_option maxRecDepth 1000000 in
/-- C9 witness: the amended claim applied to a record with an empty declared
hash and no continuation lines (the MD5 digest of `""` is not all zeros). -/
theorem c9_empty_hash_witness :
    (handleRecord ⟨none, none, some "", none, none, none⟩ ["x"] initState).1.fail_payload_md5 =
      initState.fail_payload_md5 + 1 :=
  c9_empty_hash ⟨none, none, some "", none, none, none⟩ ["x"] initState rfl (by decide)

set_option maxRecDepth 1000000 in
/-- C7: every surviving record with `dynamo_output_graph` present (any
boolean) writes the reassembled payload verbatim to
`dynamo_output_graph.txt` under the compile-id directory (`"unknown"` or
`"{frame_id}_{frame_compile_id}_{attempt}"`) and appends the relative path to
that compile id's ordered Directory Index entry; end to end, a record with
compile id {1,0,0} and payload `"graph body"` produces
`1_0_0/dynamo_output_graph.txt` with exactly that content, indexed under the
label `"[1/0]"`. -/
theorem c7_dynamo_output_graph :
    (∀ (e : Envelope) (rest : List String) (st : LoopState) (b : Bool),
        e.dynamo_output_graph = some b →
        (handleRecord e rest st).1.writes =
          st.writes ++ [(compileIdDir e.compile_id ++ "/dynamo_output_graph.txt",
            (match e.has_payload with
             | some _ => (reassemble rest).1
             | none => ""))] ∧
        lookupDir (handleRecord e rest st).1.directory e.compile_id =
          some ((lookupDir st.directory e.compile_id).getD [] ++
            [compileIdDir e.compile_id ++ "/dynamo_output_graph.txt"])) ∧
    compileIdDir (some ⟨1, 0, 0⟩) = "1_0_0" ∧
    compileIdLabel (some ⟨1, 0, 0⟩) = "[1/0]" ∧
    (runLog decodeC7 logC7).writes = [("1_0_0/dynamo_output_graph.txt", "graph body")] ∧
    lookupDir (runLog decodeC7 logC7).directory (some ⟨1, 0, 0⟩) =
      some ["1_0_0/dynamo_output_graph.txt"] := by
  refine ⟨?_, by decide, by decide, by decide, by decide⟩
  intro e rest st b hd
  refine ⟨by simp [handleRecord_eq, hd], ?_⟩
  simp only [handleRecord_eq, hd]
  exact lookupDir_pushDir _ _ _ _ (lookupDir_entryOrDefault st.directory e.compile_id)

/-- C7 witness: the general write/index law applied to the end-to-end record
with one tab continuation line. -/
theorem c7_dynamo_output_graph_witness :
    (handleRecord envGraph ["\tgraph body"] initState).1.writes =
      initState.writes ++ [(compileIdDir envGraph.compile_id ++ "/dynamo_output_graph.txt",
        (reassemble ["\tgraph body"]).1)] ∧
    lookupDir (handleRecord envGraph ["\tgraph body"] initState).1.directory
        envGraph.compile_id =
      some ((lookupDir initState.directory envGraph.compile_id).getD [] ++
        [compileIdDir envGraph.compile_id ++ "/dynamo_output_graph.txt"]) :=
  c7_dynamo_output_graph.1 envGraph ["\tgraph body"] initState true rfl

/-- C8 counterexample: after one surviving record that writes no artifact
(`dynamo_output_graph` absent), the Directory Index already has an (empty)
entry for its compile id and the Sink has already created the subdirectory —
the claim says entry and subdirectory come into existence only on the first
artifact write and never for a record that writes no artifact. -/
theorem c8_lazy_entry_counterexample :
    (runLog decodeC8 logC8).writes = [] ∧
    (runLog decodeC8 logC8).dirs_created = ["unknown"] ∧
    lookupDir (runLog decodeC8 logC8).directory none = some [] := by decide

/-- C8 amended: a compile id's Directory Index entry comes into existence on
the first surviving record for that compile id, artifact or not (created
empty), and the subdirectory is created through the Sink for every surviving
record; only `dynamo_output_graph`-flagged records append artifact paths, in
emission order, and a record without the flag writes no file. -/
theorem c8_directory_entry :
    (∀ (e : Envelope) (rest : List String) (st : LoopState),
        e.dynamo_output_graph = none →
        lookupDir (handleRecord e rest st).1.directory e.compile_id =
          some ((lookupDir st.directory e.compile_id).getD []) ∧
        (handleRecord e rest st).1.writes = st.writes) ∧
    (∀ (e : Envelope) (rest : List String) (st : LoopState) (b : Bool),
        e.dynamo_output_graph = some b →
        lookupDir (handleRecord e rest st).1.directory e.compile_id =
          some ((lookupDir st.directory e.compile_id).getD [] ++
            [compileIdDir e.compile_id ++ "/dynamo_output_graph.txt"])) ∧
    (∀ (e : Envelope) (rest : List String) (st : LoopState),
        (handleRecord e rest st).1.dirs_created =
          st.dirs_created ++ [compileIdDir e.compile_id]) := by
  refine ⟨?_, ?_, ?_⟩
  · intro e rest st hd
    refine ⟨?_, by simp [handleRecord_eq, hd]⟩
    simp only [handleRecord_eq, hd]
    exact lookupDir_entryOrDefault st.directory e.compile_id
  · intro e rest st b hd
    simp only [handleRecord_eq, hd]
    exact lookupDir_pushDir _ _ _ _ (lookupDir_entryOrDefault st.directory e.compile_id)
  · intro e rest st
    simp [handleRecord_eq]

/-- C8 witness: the amended entry law applied to a no-event surviving record
from the empty state. -/
theorem c8_directory_entry_witness :
    lookupDir (handleRecord envPlain [] initState).1.directory none = some [] ∧
    (handleRecord envPlain [] initState).1.writes = [] :=
  c8_directory_entry.1 envPlain [] initState rfl

/-- Right-fold concatenation: `concatAll (x :: l) = x ++ concatAll l`. -/
def concatAll : List String → String
  | [] => ""
  | x :: l => x ++ concatAll l

theorem fmtList_true_concat (tbl : List (Nat × String)) : ∀ (ch : ChildList) (ind : Nat),
    fmtList tbl true ch ind =
      concatAll (ch.toList.map fun pr =>
        spacesStr ind ++ "- " ++ String.join pr.2.terminal ++ frameFmt tbl pr.1 ++ "\n" ++
          fmtInner tbl pr.2 (ind + 2))
  | .nil, _ => rfl
  | .cons fr node tl, ind => by
      show spacesStr ind ++ "- " ++ String.join node.terminal ++ frameFmt tbl fr ++ "\n" ++
          fmtInner tbl node (ind + 2) ++ fmtList tbl true tl ind = _
      rw [fmtList_true_concat tbl tl ind]
      rfl

/-- C5: rendering is a depth-first traversal of the children in insertion
order; at a node with more than one child each child gets its own line at the
current indent, prefixed by the `"- "` marker, with its subtree indented two
more; at a node with exactly one child the marker is replaced by the
equal-width pad `"  "` and the subtree indent does not increase (collapsing
single-child chains into a flat block); each node's terminal markers are
joined with no separator immediately before its frame text on the same line. -/
theorem c5_trie_rendering :
    (∀ (tbl : List (Nat × String)) (term : List String) (ch : ChildList) (ind : Nat),
        ch.len > 1 →
        fmtInner tbl (.mk term ch) ind =
          concatAll (ch.toList.map fun pr =>
            spacesStr ind ++ "- " ++ String.join pr.2.terminal ++ frameFmt tbl pr.1 ++ "\n" ++
              fmtInner tbl pr.2 (ind + 2))) ∧
    (∀ (tbl : List (Nat × String)) (term : List String) (fr : FrameSummary)
        (node : StackTrieNode) (ind : Nat),
        fmtInner tbl (.mk term (.cons fr node .nil)) ind =
          spacesStr ind ++ "  " ++ String.join node.terminal ++ frameFmt tbl fr ++ "\n" ++
            fmtInner tbl node ind) ∧
    (∀ (tbl : List (Nat × String)) (term : List String) (ind : Nat),
        fmtInner tbl (.mk term .nil) ind = "") ∧
    fmtInner [(1, "fa.py"), (2, "fc.py")]
        (.mk [] (.cons frA (.mk [] (.cons frB (.mk []
          (.cons frC (.mk ["* ", "* "] .nil) (.cons frD (.mk ["* "] .nil) .nil))) .nil)) .nil)) 0 =
      "  fa.py:10 in fa\n  fa.py:20 in fb\n- * * fc.py:30 in fc\n- * fc.py:40 in fd\n" := by
  refine ⟨?_, ?_, ?_, by decide⟩
  · intro tbl term ch ind h
    have hd : decide (ch.len > 1) = true := by simp [h]
    show fmtList tbl (decide (ch.len > 1)) ch ind = _
    rw [hd, fmtList_true_concat]
  · intro tbl term fr node ind
    show spacesStr ind ++ "  " ++ String.join node.terminal ++ frameFmt tbl fr ++ "\n" ++
        fmtInner tbl node ind ++ fmtList tbl false .nil ind = _
    rw [show fmtList tbl false ChildList.nil ind = "" from rfl, String.append_empty]
  · intro tbl term ind
    rfl

/-- C5 witness: the branching law applied at a two-child node, with both
subtrees leaves. -/
theorem c5_trie_rendering_witness :
    fmtInner [] (.mk [] (.cons frC (.mk ["* "] .nil) (.cons frD (.mk [] .nil) .nil))) 0 =
      concatAll (((ChildList.cons frC (.mk ["* "] .nil)
          (.cons frD (.mk [] .nil) .nil))).toList.map fun pr =>
        spacesStr 0 ++ "- " ++ String.join pr.2.terminal ++ frameFmt [] pr.1 ++ "\n" ++
          fmtInner [] pr.2 (0 + 2)) :=
  c5_trie_rendering.1 [] [] (.cons frC (.mk ["* "] .nil) (.cons frD (.mk [] .nil) .nil)) 0
    (by decide)

theorem charAt_eq_none (cs : List Char) (i : Nat) (h : cs.length ≤ i) : charAt cs i = none := by
  induction cs generalizing i with
  | nil => rfl
  | cons c tl ih =>
      cases i with
      | zero => simp at h
      | succ j => exact ih j (by simpa using h)

theorem charAt_lt_length (cs : List Char) (i : Nat) (c : Char) (h : charAt cs i = some c) :
    i < cs.length := by
  by_contra hge
  rw [charAt_eq_none cs i (by omega)] at h
  exact Option.noConfusion h

theorem charTest_elim (cs : List Char) (i : Nat) (p : Char → Bool)
    (h : charTest cs i p = true) : ∃ c, charAt cs i = some c ∧ p c = true := by
  unfold charTest at h
  cases hc : charAt cs i with
  | none => rw [hc] at h; exact Bool.noConfusion h
  | some c => rw [hc] at h; exact ⟨c, rfl, h⟩

theorem charTest_char (cs : List Char) (i : Nat) (p : Char → Bool) (c : Char)
    (ht : charTest cs i p = true) (hc : charAt cs i = some c) : p c = true := by
  obtain ⟨c', hc', hp⟩ := charTest_elim cs i p ht
  rw [hc] at hc'
  cases hc'
  exact hp

theorem findColonIdx_colon (cs : List Char) : ∀ (i k : Nat),
    findColonIdx cs i = some k → charAt cs k = some ':' := by
  induction cs with
  | nil => intro i k h; exact Option.noConfusion h
  | cons c tl ih =>
      intro i k h
      cases i with
      | zero =>
          by_cases hc : c == ':'
          · simp [findColonIdx, hc] at h
            subst h
            simpa [charAt] using beq_iff_eq.mp hc
          · simp [findColonIdx, hc] at h
            obtain ⟨k', hk', he⟩ := h
            subst he
            exact ih 0 k' hk'
      | succ i' =>
          simp [findColonIdx] at h
          obtain ⟨k', hk', he⟩ := h
          subst he
          exact ih i' k' hk'

theorem findColonIdx_ge (cs : List Char) : ∀ (i k : Nat),
    findColonIdx cs i = some k → i ≤ k := by
  induction cs with
  | nil => intro i k h; exact Option.noConfusion h
  | cons c tl ih =>
      intro i k h
      cases i with
      | zero => omega
      | succ i' =>
          simp [findColonIdx] at h
          obtain ⟨k', hk', he⟩ := h
          have := ih i' k' hk'
          omega

theorem findColonIdx_min (cs : List Char) : ∀ (i k : Nat),
    findColonIdx cs i = some k → ∀ j, i ≤ j → j < k → charAt cs j ≠ some ':' := by
  induction cs with
  | nil => intro i k h; exact Option.noConfusion h
  | cons c tl ih =>
      intro i k h j hij hjk
      cases i with
      | zero =>
          by_cases hc : c == ':'
          · simp [findColonIdx, hc] at h
            omega
          · simp [findColonIdx, hc] at h
            obtain ⟨k', hk', he⟩ := h
            cases j with
            | zero =>
                intro habs
                simp [charAt] at habs
                subst habs
                simp at hc
            | succ j' => exact ih 0 k' hk' j' (by omega) (by omega)
      | succ i' =>
          simp [findColonIdx] at h
          obtain ⟨k', hk', he⟩ := h
          cases j with
          | zero => omega
          | succ j' => exact ih i' k' hk' j' (by omega) (by omega)

theorem digitRunFrom_digits (cs : List Char) : ∀ (i j : Nat),
    j < digitRunFrom cs i → ∃ ch, charAt cs (i+j) = some ch ∧ isDigitCh ch = true := by
  induction cs with
  | nil => intro i j h; simp [digitRunFrom] at h
  | cons c tl ih =>
      intro i j h
      cases i with
      | zero =>
          by_cases hd : isDigitCh c
          · cases j with
            | zero => exact ⟨c, rfl, hd⟩
            | succ j' =>
                simp [digitRunFrom, hd] at h
                obtain ⟨ch, hch, hdg⟩ := ih 0 j' (by omega)
                exact ⟨ch, by simpa [charAt] using hch, hdg⟩
          · simp [digitRunFrom, hd] at h
      | succ i' =>
          simp [digitRunFrom] at h
          obtain ⟨ch, hch, hdg⟩ := ih i' j h
          exact ⟨ch, by simpa [charAt, Nat.succ_add] using hch, hdg⟩

theorem glogScan_elim (cs : List Char) (p e : Nat) (h : glogScan cs p = some e) :
    (charTest cs p isLevelCh = true ∧
     charTest cs (p+1) isDigitCh = true ∧ charTest cs (p+2) isDigitCh = true ∧
     charTest cs (p+3) isDigitCh = true ∧ charTest cs (p+4) isDigitCh = true ∧
     charTest cs (p+5) (· == ' ') = true ∧
     charTest cs (p+6) isDigitCh = true ∧ charTest cs (p+7) isDigitCh = true ∧
     charTest cs (p+8) (· == ':') = true ∧
     charTest cs (p+9) isDigitCh = true ∧ charTest cs (p+10) isDigitCh = true ∧
     charTest cs (p+11) (· == ':') = true ∧
     charTest cs (p+12) isDigitCh = true ∧ charTest cs (p+13) isDigitCh = true ∧
     charTest cs (p+14) (fun c => !(c == '\n')) = true ∧
     charTest cs (p+15) isDigitCh = true ∧ charTest cs (p+16) isDigitCh = true ∧
     charTest cs (p+17) isDigitCh = true ∧ charTest cs (p+18) isDigitCh = true ∧
     charTest cs (p+19) isDigitCh = true ∧ charTest cs (p+20) isDigitCh = true ∧
     charTest cs (p+21) (· == ' ') = true ∧
     charTest cs (p+22) isDigitCh = true) ∧
    ∃ c, findColonIdx cs (p+22) = some c ∧ p + 24 ≤ c ∧
      1 ≤ digitRunFrom cs (c+1) ∧
      charTest cs (c+1+digitRunFrom cs (c+1)) (· == ']') = true ∧
      charTest cs (c+2+digitRunFrom cs (c+1)) (· == ' ') = true ∧
      e = c+3+digitRunFrom cs (c+1) := by
  unfold glogScan at h
  split at h
  all_goals try exact Option.noConfusion h
  rename_i hcond
  simp only [Bool.and_eq_true] at hcond
  refine ⟨by tauto, ?_⟩
  split at h
  all_goals try exact Option.noConfusion h
  rename_i c hfc
  refine ⟨c, hfc, ?_⟩
  split at h
  all_goals try exact Option.noConfusion h
  rename_i hle
  split at h
  all_goals try exact Option.noConfusion h
  rename_i hrun
  simp only [Bool.and_eq_true, decide_eq_true_eq] at hrun
  exact ⟨hle, hrun.1.1, hrun.1.2, hrun.2, (Option.some.inj h).symm⟩

theorem colon_notAt_digit (cs : List Char) (j : Nat) (h : charTest cs j isDigitCh = true) :
    charAt cs j ≠ some ':' := by
  intro hc
  have := charTest_char cs j isDigitCh ':' h hc
  simp [isDigitCh] at this

theorem colon_notAt_level (cs : List Char) (j : Nat) (h : charTest cs j isLevelCh = true) :
    charAt cs j ≠ some ':' := by
  intro hc
  have := charTest_char cs j isLevelCh ':' h hc
  simp [isLevelCh] at this

theorem colon_notAt_space (cs : List Char) (j : Nat)
    (h : charTest cs j (· == ' ') = true) : charAt cs j ≠ some ':' := by
  intro hc
  have := charTest_char cs j (· == ' ') ':' h hc
  simp at this

theorem isDigitCh_not_level (ch : Char) (hd : isDigitCh ch = true) (hl : isLevelCh ch = true) :
    False := by
  simp only [isLevelCh, Bool.or_eq_true, beq_iff_eq] at hl
  rcases hl with (((h | h) | h) | h) | h <;> subst h <;> simp [isDigitCh] at hd

/-- Under a full header-grammar parse of the whole line at position 0, the
only possible positions of `':'` are 8, 11, 14 (the free character between
seconds and microseconds) and `c` (the colon before the line number). -/
theorem headerOnly_colon_positions (cs : List Char)
    (hs : glogScan cs 0 = some cs.length) :
    ∀ i, charAt cs i = some ':' →
      i = 8 ∨ i = 11 ∨ i = 14 ∨ findColonIdx cs 22 = some i := by
  obtain ⟨hpre, c, hfc, hle, hd1, hbr, hsp, hlen⟩ := glogScan_elim cs 0 cs.length hs
  obtain ⟨f0, f1, f2, f3, f4, f5, f6, f7, f8, f9, f10, f11, f12, f13, f14,
    f15, f16, f17, f18, f19, f20, f21, f22⟩ := hpre
  intro i hi
  rcases Nat.lt_or_ge i 23 with h23 | h23
  · interval_cases i <;>
      first
        | omega
        | exact absurd hi (colon_notAt_level _ _ (by assumption))
        | exact absurd hi (colon_notAt_digit _ _ (by assumption))
        | exact absurd hi (colon_notAt_space _ _ (by assumption))
  · rcases Nat.lt_or_ge i c with hic | hic
    · exact absurd hi (findColonIdx_min cs 22 c hfc i (by omega) hic)
    · rcases Nat.eq_or_lt_of_le hic with he | hlt
      · right; right; right
        rw [he] at hfc
        simpa using hfc
      · rcases Nat.lt_or_ge i (c + 1 + digitRunFrom cs (c+1)) with hrun | hrun
        · obtain ⟨ch, hch, hdg⟩ := digitRunFrom_digits cs (c+1) (i - (c+1)) (by omega)
          rw [show c + 1 + (i - (c+1)) = i from by omega] at hch
          rw [hch] at hi
          cases hi
          simp [isDigitCh] at hdg
        · rcases Nat.eq_or_lt_of_le hrun with he1 | hlt1
          · exfalso
            obtain ⟨ch, hch, hb⟩ := charTest_elim _ _ _ hbr
            rw [he1] at hch
            rw [hch] at hi
            cases hi
            simp at hb
          · rcases Nat.eq_or_lt_of_le (show c + 2 + digitRunFrom cs (c+1) ≤ i from by omega)
              with he2 | hlt2
            · exfalso
              obtain ⟨ch, hch, hb⟩ := charTest_elim _ _ _ hsp
              rw [he2] at hch
              rw [hch] at hi
              cases hi
              simp at hb
            · exfalso
              have : charAt cs i = none := charAt_eq_none cs i (by omega)
              rw [this] at hi
              exact Option.noConfusion hi

/-- If the header grammar consumes the whole line from position 0 (so there
is no payload character), the regex match fails at every start position:
position 0 runs out of input at the payload, and every later start would need
colons at offsets 8 and 11, which the line's colon inventory (positions 8,
11, possibly 14, and the single pathname colon `c ≥ 24`) cannot provide
together with a `[VIWEC]` character at the start offset. -/
theorem headerOnly_no_match (cs : List Char) (hs : glogScan cs 0 = some cs.length) :
    ∀ p, glogMatchAt cs p = none := by
  intro p
  unfold glogMatchAt
  cases hp : glogScan cs p with
  | none => rfl
  | some e =>
      by_cases hp0 : p = 0
      · subst hp0
        rw [hs] at hp
        have he : e = cs.length := (Option.some.inj hp).symm
        subst he
        simp [charTest, charAt_eq_none cs cs.length (Nat.le_refl _)]
      · exfalso
        obtain ⟨⟨g0, _, _, _, _, _, _, _, g8, _, _, g11, _, _, _, _, _, _, _, _, _, _, _⟩, _⟩ :=
          glogScan_elim cs p e hp
        obtain ⟨c8, hc8, hb8⟩ := charTest_elim _ _ _ g8
        have hc8' : charAt cs (p+8) = some ':' := by
          rw [hc8]
          simpa using hb8
        have hpos8 := headerOnly_colon_positions cs hs (p+8) hc8'
        obtain ⟨⟨h0, h1, h2, h3, h4, h5, h6, h7, h8', h9, h10, h11', h12, h13, h14,
          h15, h16, h17, h18, h19, h20, h21, h22⟩, c, hfc, hle, _⟩ :=
          glogScan_elim cs 0 cs.length hs
        have hfc22 : findColonIdx cs 22 = some c := hfc
        have hle24 : 24 ≤ c := hle
        rcases hpos8 with h8eq | h8eq | h8eq | h8eq
        · omega
        · have hp3 : p = 3 := by omega
          subst hp3
          obtain ⟨chL, hchL, hL⟩ := charTest_elim _ _ _ g0
          have h3' : charTest cs 3 isDigitCh = true := h3
          exact isDigitCh_not_level chL (charTest_char cs 3 isDigitCh chL h3' hchL) hL
        · have hp6 : p = 6 := by omega
          subst hp6
          obtain ⟨chL, hchL, hL⟩ := charTest_elim _ _ _ g0
          have h6' : charTest cs 6 isDigitCh = true := h6
          exact isDigitCh_not_level chL (charTest_char cs 6 isDigitCh chL h6' hchL) hL
        · have hceq : c = p + 8 := by
            rw [hfc22] at h8eq
            exact Option.some.inj h8eq
          obtain ⟨c11, hc11, hb11⟩ := charTest_elim _ _ _ g11
          have hc11' : charAt cs (p+11) = some ':' := by
            rw [hc11]
            simpa using hb11
          rcases headerOnly_colon_positions cs hs (p+11) hc11' with h | h | h | h
          · omega
          · omega
          · omega
          · rw [hfc22] at h
            have := Option.some.inj h
            omega

theorem glogSearch_none (cs : List Char) (h : ∀ p, glogMatchAt cs p = none) :
    ∀ fuel q, glogSearch cs fuel q = none := by
  intro fuel
  induction fuel with
  | zero => intro q; rfl
  | succ f ih =>
      intro q
      show (match glogMatchAt cs q with
            | some e => some e
            | none => glogSearch cs f (q+1)) = none
      rw [h q]
      exact ih (q+1)

/-- C10: a successful header match always leaves at least one payload
character (the payload capture start is a strict offset into the line), and a
line that matches the header grammar up through the literal `"] "` with
nothing after it fails the Header Matcher: the loop increments
`fail_header_match` and skips the line without consuming continuation lines
and without decoding anything (the result does not depend on `decode`). -/
theorem c10_empty_payload_header_fails :
    (∀ (cs : List Char) (p e : Nat), glogMatchAt cs p = some e → e < cs.length) ∧
    (∀ (decode : String → Option Envelope) (line : String) (rest : List String)
        (st : LoopState),
        headerOnlyLine line.data = true →
        stepLine decode line rest st = ({ st with fail_glog := st.fail_glog + 1 }, rest)) := by
  constructor
  · intro cs p e h
    unfold glogMatchAt at h
    split at h
    all_goals try exact Option.noConfusion h
    rename_i e' hp
    split at h
    all_goals try exact Option.noConfusion h
    rename_i ht
    obtain ⟨ch, hch, _⟩ := charTest_elim _ _ _ ht
    have hlt := charAt_lt_length cs e' ch hch
    rw [← Option.some.inj h]
    exact hlt
  · intro decode line rest st h
    have hs : glogScan line.data 0 = some line.data.length := by
      unfold headerOnlyLine at h
      exact beq_iff_eq.mp h
    have hps : glogPayloadStart line.data = none :=
      glogSearch_none line.data (headerOnly_no_match line.data hs) _ 0
    have hgp : glogPayload line = none := by
      unfold glogPayload
      rw [hps]
      rfl
    unfold stepLine
    rw [hgp]

/-- C10 witness: a concrete matching line has its payload start inside the
line, and a concrete header-only line is counted as a header-match failure. -/
theorem c10_empty_payload_header_fails_witness :
    35 < (glogLine "abc").data.length ∧
    stepLine (fun _ => none) "I0203 04:05:06.123456 789 x.py:10] " [] initState =
      ({ initState with fail_glog := initState.fail_glog + 1 }, []) :=
  ⟨c10_empty_payload_header_fails.1 (glogLine "abc").data 0 35 (by decide),
   c10_empty_payload_header_fails.2 (fun _ => none) "I0203 04:05:06.123456 789 x.py:10] " []
     initState (by decide)⟩

/-! ## Fuel sufficiency: one step consumes at least the head line, so
`lines.length` fuel computes the whole loop (`runLog` is well defined). -/

theorem takeTabbed_snd_length (l : List String) : (takeTabbed l).2.length ≤ l.length := by
  induction l with
  | nil => simp [takeTabbed]
  | cons x tl ih =>
      by_cases h : startsTab x
      · simp only [takeTabbed, h, if_true]
        simpa using Nat.le_succ_of_le ih
      · simp [takeTabbed, h]

theorem handleRecord_snd_length (e : Envelope) (rest : List String) (st : LoopState) :
    (handleRecord e rest st).2.length ≤ rest.length := by
  rw [handleRecord_eq]
  cases e.has_payload with
  | none => simp
  | some expect => simpa [reassemble] using takeTabbed_snd_length rest

theorem stepLine_snd_length (decode : String → Option Envelope) (line : String)
    (rest : List String) (st : LoopState) :
    (stepLine decode line rest st).2.length ≤ rest.length := by
  unfold stepLine rankStep
  split
  · exact Nat.le_refl _
  · split
    · exact Nat.le_refl _
    · split
      · split
        · exact Nat.le_refl _
        · exact handleRecord_snd_length _ rest _
      · exact handleRecord_snd_length _ rest _

theorem runLoopFuel_enough (decode : String → Option Envelope) :
    ∀ (f1 f2 : Nat) (lines : List String) (st : LoopState),
      lines.length ≤ f1 → lines.length ≤ f2 →
      runLoopFuel decode f1 lines st = runLoopFuel decode f2 lines st := by
  intro f1
  induction f1 with
  | zero =>
      intro f2 lines st h1 _
      have hnil : lines = [] := List.length_eq_zero.mp (Nat.le_zero.mp h1)
      subst hnil
      cases f2 <;> rfl
  | succ f ih =>
      intro f2 lines st h1 h2
      cases lines with
      | nil => cases f2 <;> rfl
      | cons line rest =>
          cases f2 with
          | zero => simp at h2
          | succ f2' =>
              have hlen := stepLine_snd_length decode line rest st
              simp only [List.length_cons] at h1 h2
              exact ih f2' (stepLine decode line rest st).2 (stepLine decode line rest st).1
                (by omega) (by omega)
